import Mathlib

/-!
Shallow embedding of the KitchenOS shopping-list and planner helpers.

Sources:
* `src/lib/shopping-utils.ts` — `getRemainingItemsByCategory`,
  `countRemainingItems`, `buildShareText`, `getPrintLayoutConfig`.
* `src/unnamed/part_001` (`planner-utils`) — `getNextAvailableDay`.

Modelling choices:
* A JS object with string keys in insertion order is modelled as an
  association list `List (String × _)`; `Object.entries`, `.map`, `.filter`
  and `Object.fromEntries` become the corresponding list operations.
* The `checkedItems : Record<string, boolean>` map is modelled as a total
  function `String → Bool`: an absent key reads as `undefined`, which is
  falsy, exactly like a stored `false`.
* JS string truthiness (`item.amount ? … : …`) is the test `amount ≠ ""`.
* `Array.prototype.indexOf` (first match, `-1` when absent) is modelled by
  `indexOfFirst`, returning `Option Nat`.
* The bounded `for` loop of `getNextAvailableDay` is modelled by the
  fuel-indexed recursion `scanFrom`, with fuel `weekDays.length`.
-/

/-- `interface ShoppingItem` from `src/lib/api.ts`. -/
structure ShoppingItem where
  name : String
  amount : String
  checked : Option Bool := none
deriving DecidableEq

/-- `ShoppingList` (category → ordered items), as an ordered association list. -/
abbrev ShoppingList := List (String × List ShoppingItem)

/-- `RemainingItemsByCategory` from `src/lib/shopping-utils.ts`. -/
abbrev RemainingItemsByCategory := List (String × List ShoppingItem)

/-- The checked-items record: `true` iff the key is present and truthy. -/
abbrev CheckedItems := String → Bool

/-- The composite key `` `${category}-${index}` ``. -/
def compositeKey (category : String) (index : Nat) : String :=
  category ++ "-" ++ toString index

/-- `items.filter((_, index) => !checkedItems[key])`, carrying the running
positional index explicitly. -/
def filterUnchecked (checkedItems : CheckedItems) (category : String) :
    Nat → List ShoppingItem → List ShoppingItem
  | _, [] => []
  | i, item :: rest =>
    if checkedItems (compositeKey category i) then
      filterUnchecked checkedItems category (i + 1) rest
    else
      item :: filterUnchecked checkedItems category (i + 1) rest

/-- `getRemainingItemsByCategory` from `src/lib/shopping-utils.ts`. -/
def getRemainingItemsByCategory (shoppingList : Option ShoppingList)
    (checkedItems : CheckedItems) : RemainingItemsByCategory :=
  match shoppingList with
  | none => []
  | some list =>
    (list.map (fun p => (p.1, filterUnchecked checkedItems p.1 0 p.2))).filter
      (fun p => p.2.length > 0)

/-- `countRemainingItems` from `src/lib/shopping-utils.ts`
(`reduce((sum, items) => sum + items.length, 0)`). -/
def countRemainingItems (remaining : RemainingItemsByCategory) : Nat :=
  remaining.foldl (fun sum p => sum + p.2.length) 0

/-- One item line of `buildShareText`:
`` `- ${item.name}${item.amount ? ` (${item.amount})` : ''}` ``. -/
def itemLine (item : ShoppingItem) : String :=
  let suffix := if item.amount ≠ "" then " (" ++ item.amount ++ ")" else ""
  "- " ++ item.name ++ suffix

/-- The `lines` array built by `buildShareText` before joining: the header,
then for each category a pushed block of blank line, category name and item
lines (`forEach`/`push` becomes a left fold that appends). -/
def shareLines (remaining : RemainingItemsByCategory) : List String :=
  remaining.foldl (fun acc p => acc ++ ("" :: p.1 :: p.2.map itemLine))
    ["Lista zakupów (do kupienia):"]

/-- JS `String.prototype.trim`: drop leading and trailing whitespace
characters (modelled structurally over the character list so that it is
kernel-computable). -/
def jsTrim (s : String) : String :=
  ⟨((s.data.dropWhile Char.isWhitespace).reverse.dropWhile
      Char.isWhitespace).reverse⟩

/-- `buildShareText` from `src/lib/shopping-utils.ts`:
`lines.join('\n').trim()`. -/
def buildShareText (remaining : RemainingItemsByCategory) : String :=
  jsTrim (String.intercalate "\n" (shareLines remaining))

/-- `interface PrintLayoutConfig` from `src/lib/shopping-utils.ts`. -/
structure PrintLayoutConfig where
  columns : Nat
  fontSize : Nat
deriving DecidableEq

/-- `getPrintLayoutConfig` from `src/lib/shopping-utils.ts`. -/
def getPrintLayoutConfig (remaining : RemainingItemsByCategory) :
    PrintLayoutConfig :=
  let totalLines := remaining.foldl (fun sum p => sum + p.2.length + 1) 0
  let columns := if totalLines > 40 then 3 else 2
  let fontSize :=
    if totalLines > 60 then 9
    else if totalLines > 45 then 10
    else if totalLines > 30 then 11
    else 12
  ⟨columns, fontSize⟩

/-- `Array.prototype.indexOf`: index of the first occurrence, `none` when the
element is absent (JS returns `-1`). -/
def indexOfFirst (x : String) : List String → Option Nat
  | [] => none
  | y :: ys => if y = x then some 0 else (indexOfFirst x ys).map (· + 1)

/-- The bounded scan loop of `getNextAvailableDay`: for the given remaining
fuel, probe `weekDays[(startIndex + offset) % weekDays.length]` and return the
first candidate not in the assigned set. -/
def scanFrom (assignedDays weekDays : List String) (startIndex : Nat) :
    Nat → Nat → Option String
  | _, 0 => none
  | offset, fuel + 1 =>
    let candidate := weekDays.getD ((startIndex + offset) % weekDays.length) ""
    if candidate ∈ assignedDays then
      scanFrom assignedDays weekDays startIndex (offset + 1) fuel
    else
      some candidate

/-- `getNextAvailableDay` from `src/unnamed/part_001` (`planner-utils`).
`new Set(assignedDays).size` is the number of distinct assigned names,
i.e. `assignedDays.dedup.length`. -/
def getNextAvailableDay (assignedDays weekDays : List String)
    (currentDay : String) : Option String :=
  if weekDays.length = 0 then none
  else if weekDays.length ≤ assignedDays.dedup.length then none
  else
    match indexOfFirst currentDay weekDays with
    | none => none
    | some startIndex => scanFrom assignedDays weekDays startIndex 1 weekDays.length

/-- The seven-day Monday-first week used by the planner tests. -/
def weekDays7 : List String :=
  ["Mon", "Tue", "Wed", "Thu", "Fri", "Sat", "Sun"]

/-- The candidates probed by the scan loop, in probe order: the elements at
positions `(startIndex + 1 + k) % weekDays.length` for `k = 0, …, length-1`,
i.e. one full rotation starting immediately after `startIndex`. -/
def rotationCandidates (weekDays : List String) (startIndex : Nat) :
    List String :=
  (List.range weekDays.length).map
    (fun k => weekDays.getD ((startIndex + 1 + k) % weekDays.length) "")

/-- A category of `n` indistinct placeholder items, for boundary examples. -/
def mkItems (n : Nat) : List ShoppingItem :=
  List.replicate n ⟨"x", "", none⟩

/-- C8: applying `getRemainingItemsByCategory` to a null shopping list yields
the empty mapping for every checked map, as a defined (non-error) result. -/
theorem c8_null_list_empty (checkedItems : CheckedItems) :
    getRemainingItemsByCategory none checkedItems = [] := rfl

/-! ### Helper lemmas about the shopping-list embedding -/

theorem filterUnchecked_eq_enumFrom (checkedItems : CheckedItems)
    (category : String) (items : List ShoppingItem) (n : Nat) :
    filterUnchecked checkedItems category n items =
      ((items.enumFrom n).filter
        (fun q => !checkedItems (compositeKey category q.1))).map Prod.snd := by
  induction items generalizing n with
  | nil => rfl
  | cons item rest ih =>
    simp only [filterUnchecked, List.enumFrom, List.filter_cons]
    by_cases h : checkedItems (compositeKey category n) <;>
      simp [h, ih]

theorem length_filterUnchecked (checkedItems : CheckedItems)
    (category : String) (items : List ShoppingItem) (n : Nat) :
    (filterUnchecked checkedItems category n items).length =
      ((List.range' n items.length).filter
        (fun i => !checkedItems (compositeKey category i))).length := by
  induction items generalizing n with
  | nil => rfl
  | cons item rest ih =>
    simp only [filterUnchecked, List.length_cons, List.range'_succ,
      List.filter_cons]
    by_cases h : checkedItems (compositeKey category n) <;>
      simp [h, ih]

theorem foldl_add_length (l : RemainingItemsByCategory) (a : Nat) :
    l.foldl (fun sum p => sum + p.2.length) a =
      a + (l.map (fun p => p.2.length)).sum := by
  induction l generalizing a with
  | nil => simp
  | cons x xs ih => simp [List.foldl_cons, ih, Nat.add_assoc]

theorem foldl_add_length_succ (l : RemainingItemsByCategory) (a : Nat) :
    l.foldl (fun sum p => sum + p.2.length + 1) a =
      a + (l.map (fun p => p.2.length + 1)).sum := by
  induction l generalizing a with
  | nil => simp
  | cons x xs ih =>
    rw [List.foldl_cons, ih, List.map_cons, List.sum_cons]
    omega

theorem countRemainingItems_eq (r : RemainingItemsByCategory) :
    countRemainingItems r = (r.map (fun p => p.2.length)).sum := by
  unfold countRemainingItems
  rw [foldl_add_length, Nat.zero_add]

theorem sum_lengths_filter_pos (l : RemainingItemsByCategory) :
    ((l.filter (fun p => p.2.length > 0)).map (fun p => p.2.length)).sum =
      (l.map (fun p => p.2.length)).sum := by
  induction l with
  | nil => rfl
  | cons x xs ih =>
    by_cases h : x.2.length > 0
    · simp [List.filter_cons, h, ih]
    · have hz : x.2.length = 0 := by omega
      simp [List.filter_cons, h, ih, hz]

theorem foldl_append_blocks {α β : Type} (g : α → List β) (l : List α)
    (acc : List β) :
    l.foldl (fun acc p => acc ++ g p) acc = acc ++ l.flatMap g := by
  induction l generalizing acc with
  | nil => simp
  | cons x xs ih => simp [List.foldl_cons, ih]

theorem shareLines_eq (remaining : RemainingItemsByCategory) :
    shareLines remaining =
      "Lista zakupów (do kupienia):" ::
        remaining.flatMap (fun p => "" :: p.1 :: p.2.map itemLine) := by
  unfold shareLines
  rw [foldl_append_blocks]
  rfl

theorem itemLine_eq (item : ShoppingItem) :
    itemLine item = "- " ++ item.name ++
      (if item.amount = "" then "" else " (" ++ item.amount ++ ")") := by
  unfold itemLine
  by_cases h : item.amount = "" <;> simp [h]

theorem getPrintLayoutConfig_eq (remaining : RemainingItemsByCategory) :
    getPrintLayoutConfig remaining =
      ⟨if 40 < (remaining.map (fun p => p.2.length + 1)).sum then 3 else 2,
       if 60 < (remaining.map (fun p => p.2.length + 1)).sum then 9
       else if 45 < (remaining.map (fun p => p.2.length + 1)).sum then 10
       else if 30 < (remaining.map (fun p => p.2.length + 1)).sum then 11
       else 12⟩ := by
  unfold getPrintLayoutConfig
  rw [foldl_add_length_succ, Nat.zero_add]

/-! ### Claim theorems for the shopping-list module -/

/-- C1: `getRemainingItemsByCategory` on a non-null list keeps the item at
zero-based index `i` of category `c` iff the key `"<c>-<i>"` is not truthy,
keeps the categories in the list's own order, keeps kept items in their
original relative order (a stable positional filter), and drops every
category whose kept-item sequence is empty. -/
theorem c1_remaining_characterization (list : ShoppingList)
    (checkedItems : CheckedItems) :
    getRemainingItemsByCategory (some list) checkedItems =
      (list.map (fun p =>
        (p.1, (p.2.enum.filter
            (fun q => !checkedItems (compositeKey p.1 q.1))).map Prod.snd))).filter
        (fun p => !p.2.isEmpty) := by
  simp only [getRemainingItemsByCategory]
  have hmap : list.map (fun p => (p.1, filterUnchecked checkedItems p.1 0 p.2)) =
      list.map (fun p =>
        (p.1, (p.2.enum.filter
            (fun q => !checkedItems (compositeKey p.1 q.1))).map Prod.snd)) :=
    List.map_congr_left (fun p _ => by
      rw [filterUnchecked_eq_enumFrom]
      rfl)
  rw [hmap]
  exact List.filter_congr (fun p _ => by cases h : p.2 <;> simp [h])

/-- C3: `getPrintLayoutConfig` computes `totalLines` as the sum of
`itemCount + 1` over the categories, picks `columns = 3` exactly when
`totalLines > 40` (else `2`), picks `fontSize` by the descending thresholds
`60/45/30` to `9/10/11/12`, and at the boundaries `totalLines = 46, 31, 30,
61` yields font sizes `10, 11, 12, 9`. -/
theorem c3_print_layout_thresholds (remaining : RemainingItemsByCategory) :
    ((getPrintLayoutConfig remaining).columns =
        (if 40 < (remaining.map (fun p => p.2.length + 1)).sum then 3 else 2)
    ∧ (getPrintLayoutConfig remaining).fontSize =
        (if 60 < (remaining.map (fun p => p.2.length + 1)).sum then 9
         else if 45 < (remaining.map (fun p => p.2.length + 1)).sum then 10
         else if 30 < (remaining.map (fun p => p.2.length + 1)).sum then 11
         else 12))
    ∧ (([("C", mkItems 45)].map (fun p => p.2.length + 1)).sum = 46
        ∧ (getPrintLayoutConfig [("C", mkItems 45)]).fontSize = 10)
    ∧ (([("C", mkItems 30)].map (fun p => p.2.length + 1)).sum = 31
        ∧ (getPrintLayoutConfig [("C", mkItems 30)]).fontSize = 11)
    ∧ (([("C", mkItems 29)].map (fun p => p.2.length + 1)).sum = 30
        ∧ (getPrintLayoutConfig [("C", mkItems 29)]).fontSize = 12)
    ∧ (([("C", mkItems 60)].map (fun p => p.2.length + 1)).sum = 61
        ∧ (getPrintLayoutConfig [("C", mkItems 60)]).fontSize = 9) := by
  refine ⟨⟨?_, ?_⟩, by decide, by decide, by decide, by decide⟩
  · rw [getPrintLayoutConfig_eq]
  · rw [getPrintLayoutConfig_eq]

/-- C4 counterexample: the claim says a whitespace-only `amount` is
suppressed entirely (no parentheses), because the suffix is supposed to be
appended only when `amount` is non-empty after trimming. The code tests JS
truthiness without trimming, so the item `{name: "Cebula", amount: " "}`
renders as `"- Cebula ( )"`, not `"- Cebula"`. -/
theorem c4_counterexample :
    jsTrim " " = "" ∧
    buildShareText [("W", [⟨"Cebula", " ", none⟩])] =
      "Lista zakupów (do kupienia):\n\nW\n- Cebula ( )" ∧
    buildShareText [("W", [⟨"Cebula", " ", none⟩])] ≠
      "Lista zakupów (do kupienia):\n\nW\n- Cebula" := by
  refine ⟨by decide, by decide, by decide⟩

/-- C4 amended: every item line produced by `buildShareText` is
`"- " + name`, with `" (" + amount + ")"` appended exactly when `amount` is a
non-empty string — no trimming is applied, so a whitespace-only amount does
produce the parenthesized suffix. -/
theorem c4_amended_item_line_format (remaining : RemainingItemsByCategory) :
    shareLines remaining =
      "Lista zakupów (do kupienia):" ::
        remaining.flatMap (fun p => "" :: p.1 :: p.2.map (fun item =>
          "- " ++ item.name ++
            (if item.amount = "" then ""
             else " (" ++ item.amount ++ ")"))) := by
  rw [shareLines_eq]
  have h : itemLine = fun item : ShoppingItem =>
      "- " ++ item.name ++
        (if item.amount = "" then "" else " (" ++ item.amount ++ ")") :=
    funext itemLine_eq
  rw [h]

/-- C5: `countRemainingItems ∘ getRemainingItemsByCategory` counts exactly
the `(category, item)` pairs whose composite key is not truthy in the checked
map; on the empty mapping the count is `0` (and, being a natural number, it
is never negative). -/
theorem c5_count_conservation (list : ShoppingList)
    (checkedItems : CheckedItems) :
    countRemainingItems (getRemainingItemsByCategory (some list) checkedItems) =
      (list.map (fun p =>
        ((List.range p.2.length).filter
          (fun i => !checkedItems (compositeKey p.1 i))).length)).sum
    ∧ countRemainingItems [] = 0 := by
  refine ⟨?_, rfl⟩
  rw [countRemainingItems_eq]
  simp only [getRemainingItemsByCategory]
  rw [sum_lengths_filter_pos, List.map_map]
  refine congrArg List.sum (List.map_congr_left (fun p _ => ?_))
  show (filterUnchecked checkedItems p.1 0 p.2).length = _
  rw [length_filterUnchecked, List.range_eq_range']

/-- C9: `buildShareText` output is the trimmed newline-join of the fixed
header line followed, per category in iteration order, by one blank line,
the bare category name and the item lines; the empty mapping yields exactly
the header line. -/
theorem c9_share_text_structure (remaining : RemainingItemsByCategory) :
    buildShareText remaining =
      jsTrim (String.intercalate "\n"
        ("Lista zakupów (do kupienia):" ::
          remaining.flatMap (fun p => "" :: p.1 :: p.2.map itemLine)))
    ∧ buildShareText [] = "Lista zakupów (do kupienia):" := by
  refine ⟨?_, by decide⟩
  unfold buildShareText
  rw [shareLines_eq]

/-! ### Helper lemmas about the planner embedding -/

theorem indexOfFirst_eq_none_iff (x : String) (l : List String) :
    indexOfFirst x l = none ↔ x ∉ l := by
  induction l with
  | nil => simp [indexOfFirst]
  | cons y ys ih =>
    by_cases h : y = x
    · simp [indexOfFirst, h]
    · have h' : ¬ x = y := fun hxy => h hxy.symm
      simp [indexOfFirst, h, h', Option.map_eq_none', ih, List.mem_cons]

theorem exists_rotation_offset (n j s : Nat) (hn : 0 < n) (hj : j < n) :
    ∃ k, k < n ∧ (s + 1 + k) % n = j := by
  refine ⟨(j + n - (s + 1) % n) % n, Nat.mod_lt _ hn, ?_⟩
  have hr : (s + 1) % n < n := Nat.mod_lt _ hn
  have hq : n * ((s + 1) / n) + (s + 1) % n = s + 1 := Nat.div_add_mod _ _
  have hsplit : s + 1 + (j + n - (s + 1) % n) =
      n * ((s + 1) / n) + (j + n) := by omega
  rw [Nat.add_mod_mod, hsplit, Nat.mul_add_mod, Nat.add_mod_right,
    Nat.mod_eq_of_lt hj]

theorem scanFrom_eq_find (assignedDays weekDays : List String)
    (startIndex : Nat) (fuel : Nat) :
    ∀ offset, scanFrom assignedDays weekDays startIndex offset fuel =
      ((List.range fuel).map
        (fun k =>
          weekDays.getD ((startIndex + offset + k) % weekDays.length) "")).find?
        (fun d => !decide (d ∈ assignedDays)) := by
  induction fuel with
  | zero => intro offset; rfl
  | succ m ih =>
    intro offset
    have hstep : scanFrom assignedDays weekDays startIndex offset (m + 1) =
        if weekDays.getD ((startIndex + offset) % weekDays.length) ""
            ∈ assignedDays then
          scanFrom assignedDays weekDays startIndex (offset + 1) m
        else
          some (weekDays.getD ((startIndex + offset) % weekDays.length) "") :=
      rfl
    rw [hstep, List.range_succ_eq_map, List.map_cons, List.map_map,
      List.find?_cons]
    by_cases hc : weekDays.getD ((startIndex + offset) % weekDays.length) ""
        ∈ assignedDays
    · rw [if_pos hc]
      simp only [Nat.add_zero, hc, decide_True, Bool.not_true]
      rw [ih (offset + 1)]
      congr 1
      refine List.map_congr_left fun k _ => ?_
      simp only [Function.comp]
      congr 2
      omega
    · rw [if_neg hc]
      simp only [Nat.add_zero, hc, decide_False, Bool.not_false]

theorem getNextAvailableDay_scan (assignedDays weekDays : List String)
    (currentDay : String) (s : Nat)
    (hcnt : assignedDays.dedup.length < weekDays.length)
    (hs : indexOfFirst currentDay weekDays = some s) :
    getNextAvailableDay assignedDays weekDays currentDay =
      (rotationCandidates weekDays s).find?
        (fun d => !decide (d ∈ assignedDays)) := by
  unfold getNextAvailableDay
  rw [if_neg (by omega), if_neg (by omega), hs]
  show scanFrom assignedDays weekDays s 1 weekDays.length = _
  rw [scanFrom_eq_find]
  rfl

theorem mem_rotationCandidates (weekDays : List String) (s : Nat) (d : String)
    (hd : d ∈ weekDays) : d ∈ rotationCandidates weekDays s := by
  have hn : 0 < weekDays.length :=
    List.length_pos.mpr (List.ne_nil_of_mem hd)
  obtain ⟨j, hj, hget⟩ := List.mem_iff_getElem.mp hd
  obtain ⟨k, hk, hmod⟩ := exists_rotation_offset weekDays.length j s hn hj
  unfold rotationCandidates
  refine List.mem_map.mpr ⟨k, List.mem_range.mpr hk, ?_⟩
  rw [hmod, List.getD_eq_getElem _ _ hj, hget]

theorem length_le_dedup_of_subset (wd a : List String) (hnd : wd.Nodup)
    (hsub : ∀ d ∈ wd, d ∈ a) : wd.length ≤ a.dedup.length := by
  have h1 : wd.toFinset ⊆ a.toFinset := fun x hx =>
    List.mem_toFinset.mpr (hsub x (List.mem_toFinset.mp hx))
  calc wd.length = wd.toFinset.card := (List.toFinset_card_of_nodup hnd).symm
    _ ≤ a.toFinset.card := Finset.card_le_card h1
    _ = a.dedup.length := List.card_toFinset a

theorem scan_none_all_assigned (assignedDays weekDays : List String) (s : Nat)
    (hnone : scanFrom assignedDays weekDays s 1 weekDays.length = none) :
    ∀ d ∈ weekDays, d ∈ assignedDays := by
  intro d hd
  rw [scanFrom_eq_find] at hnone
  have hall := List.find?_eq_none.mp hnone d
  have hmem : d ∈ (List.range weekDays.length).map
      (fun k => weekDays.getD ((s + 1 + k) % weekDays.length) "") :=
    mem_rotationCandidates weekDays s d hd
  have := hall hmem
  simpa using this

theorem count_eq_sum_filterUnchecked (list : ShoppingList)
    (checkedItems : CheckedItems) :
    countRemainingItems (getRemainingItemsByCategory (some list) checkedItems) =
      (list.map (fun p => (filterUnchecked checkedItems p.1 0 p.2).length)).sum := by
  rw [countRemainingItems_eq]
  simp only [getRemainingItemsByCategory]
  rw [sum_lengths_filter_pos, List.map_map]
  rfl

theorem filterUnchecked_sublist (checked1 checked2 : CheckedItems)
    (h : ∀ k, checked1 k = true → checked2 k = true) (category : String)
    (items : List ShoppingItem) (n : Nat) :
    (filterUnchecked checked2 category n items).Sublist
      (filterUnchecked checked1 category n items) := by
  induction items generalizing n with
  | nil => exact List.Sublist.refl _
  | cons item rest ih =>
    simp only [filterUnchecked]
    by_cases h1 : checked1 (compositeKey category n)
    · have h2 : checked2 (compositeKey category n) = true := h _ h1
      rw [if_pos h1, if_pos h2]
      exact ih _
    · rw [if_neg h1]
      by_cases h2 : checked2 (compositeKey category n)
      · rw [if_pos h2]
        exact (ih _).cons _
      · rw [if_neg h2]
        exact (ih _).cons₂ _

/-! ### Claim theorems for the planner module, plus monotonicity -/

/-- C2: when the guards pass (non-empty week of distinct day names, current
day present, fewer distinct assigned names than week days),
`getNextAvailableDay` starts at the position immediately after the first
index of `currentDay`, scans the week circularly (wrapping past the end) for
up to `weekDays.length` steps, and returns the first day not in the assigned
set; in particular the wraparound example
`getNextAvailableDay ['Sun'] weekDays7 'Sun' = 'Mon'` holds. -/
theorem c2_rotation_scan (assignedDays weekDays : List String)
    (currentDay : String) (_hnd : weekDays.Nodup)
    (hmem : currentDay ∈ weekDays)
    (hcnt : assignedDays.dedup.length < weekDays.length) :
    (∃ s, indexOfFirst currentDay weekDays = some s ∧
      getNextAvailableDay assignedDays weekDays currentDay =
        (rotationCandidates weekDays s).find?
          (fun d => !decide (d ∈ assignedDays)))
    ∧ getNextAvailableDay ["Sun"] weekDays7 "Sun" = some "Mon" := by
  refine ⟨?_, by decide⟩
  cases hs : indexOfFirst currentDay weekDays with
  | none => exact absurd hmem ((indexOfFirst_eq_none_iff _ _).mp hs)
  | some s => exact ⟨s, rfl, getNextAvailableDay_scan _ _ _ s hcnt hs⟩

/-- Witness for C2 at the spec's wraparound example. -/
theorem c2_rotation_scan_witness :
    weekDays7.Nodup ∧ "Sun" ∈ weekDays7 ∧
      (["Sun"] : List String).dedup.length < weekDays7.length ∧
      getNextAvailableDay ["Sun"] weekDays7 "Sun" = some "Mon" :=
  ⟨by decide, by decide, by decide,
    (c2_rotation_scan ["Sun"] weekDays7 "Sun" (by decide) (by decide)
      (by decide)).2⟩

/-- C6 counterexample: with duplicated week-day names the defensive
post-loop null is reachable, so "null in exactly the guard cases" fails for
some inputs: `getNextAvailableDay ['A'] ['A','A'] 'A'` is null although none
of the three guards (empty week, distinct assigned count ≥ length, current
day absent) holds. -/
theorem c6_counterexample :
    getNextAvailableDay ["A"] ["A", "A"] "A" = none ∧
    ¬((["A", "A"] : List String) = [] ∨
      (["A", "A"] : List String).length ≤ (["A"] : List String).dedup.length ∨
      "A" ∉ (["A", "A"] : List String)) := by
  refine ⟨by decide, by decide⟩

/-- C6 amended: `getNextAvailableDay` returns null whenever one of the three
guards holds (empty `weekDays`; distinct assigned count ≥ `weekDays.length`;
`currentDay` not found), and when `weekDays` has no duplicate names null is
returned in exactly the guard cases. -/
theorem c6_amended_null_iff_guards (assignedDays weekDays : List String)
    (currentDay : String) :
    ((weekDays = [] ∨ weekDays.length ≤ assignedDays.dedup.length ∨
        currentDay ∉ weekDays) →
      getNextAvailableDay assignedDays weekDays currentDay = none)
    ∧ (weekDays.Nodup →
      (getNextAvailableDay assignedDays weekDays currentDay = none ↔
        (weekDays = [] ∨ weekDays.length ≤ assignedDays.dedup.length ∨
          currentDay ∉ weekDays))) := by
  have hfwd : (weekDays = [] ∨ weekDays.length ≤ assignedDays.dedup.length ∨
      currentDay ∉ weekDays) →
      getNextAvailableDay assignedDays weekDays currentDay = none := by
    intro hg
    unfold getNextAvailableDay
    by_cases h0 : weekDays.length = 0
    · rw [if_pos h0]
    · rw [if_neg h0]
      by_cases h1 : weekDays.length ≤ assignedDays.dedup.length
      · rw [if_pos h1]
      · rw [if_neg h1]
        have hnotmem : currentDay ∉ weekDays := by
          rcases hg with hg | hg | hg
          · simp [hg] at h0
          · exact absurd hg h1
          · exact hg
        rw [(indexOfFirst_eq_none_iff _ _).mpr hnotmem]
  refine ⟨hfwd, fun hnd => ⟨?_, hfwd⟩⟩
  intro hnone
  by_cases h0 : weekDays.length = 0
  · exact Or.inl (List.length_eq_zero.mp h0)
  · by_cases h1 : weekDays.length ≤ assignedDays.dedup.length
    · exact Or.inr (Or.inl h1)
    · refine Or.inr (Or.inr ?_)
      intro hmem
      cases hs : indexOfFirst currentDay weekDays with
      | none => exact absurd hmem ((indexOfFirst_eq_none_iff _ _).mp hs)
      | some s =>
        rw [getNextAvailableDay_scan assignedDays weekDays currentDay s
          (by omega) hs] at hnone
        have hsub : ∀ d ∈ weekDays, d ∈ assignedDays := by
          intro d hd
          have := List.find?_eq_none.mp hnone d
            (mem_rotationCandidates weekDays s d hd)
          simpa using this
        exact h1 (length_le_dedup_of_subset weekDays assignedDays hnd hsub)

/-- Witness for the amended C6 at a concrete guarded input. -/
theorem c6_amended_witness :
    ("Wed" ∉ (["Mon", "Tue"] : List String)) ∧
      getNextAvailableDay ["Mon"] ["Mon", "Tue"] "Wed" = none :=
  ⟨by decide,
    (c6_amended_null_iff_guards ["Mon"] ["Mon", "Tue"] "Wed").1
      (Or.inr (Or.inr (by decide)))⟩

/-- C7: under the spec's precondition (non-empty, duplicate-free
`weekDays`), whenever the three guards pass the circular scan always finds an
unassigned day within one rotation, so the result is non-null and the final
defensive null return is unreachable. -/
theorem c7_defensive_null_unreachable (assignedDays weekDays : List String)
    (currentDay : String) (_hne : weekDays ≠ []) (hnd : weekDays.Nodup)
    (hcnt : assignedDays.dedup.length < weekDays.length)
    (hmem : currentDay ∈ weekDays) :
    (getNextAvailableDay assignedDays weekDays currentDay).isSome = true := by
  cases hs : indexOfFirst currentDay weekDays with
  | none => exact absurd hmem ((indexOfFirst_eq_none_iff _ _).mp hs)
  | some s =>
    rw [getNextAvailableDay_scan assignedDays weekDays currentDay s hcnt hs]
    cases hf : (rotationCandidates weekDays s).find?
        (fun d => !decide (d ∈ assignedDays)) with
    | some d => rfl
    | none =>
      have hsub : ∀ d ∈ weekDays, d ∈ assignedDays := by
        intro d hd
        have := List.find?_eq_none.mp hf d
          (mem_rotationCandidates weekDays s d hd)
        simpa using this
      exact absurd (length_le_dedup_of_subset weekDays assignedDays hnd hsub)
        (by omega)

/-- Witness for C7 at a concrete input passing every guard. -/
theorem c7_defensive_null_unreachable_witness :
    (weekDays7 ≠ [] ∧ weekDays7.Nodup ∧
      (["Mon"] : List String).dedup.length < weekDays7.length ∧
      "Mon" ∈ weekDays7) ∧
    (getNextAvailableDay ["Mon"] weekDays7 "Mon").isSome = true :=
  ⟨⟨by decide, by decide, by decide, by decide⟩,
    c7_defensive_null_unreachable ["Mon"] weekDays7 "Mon" (by decide)
      (by decide) (by decide) (by decide)⟩

/-- C10: checking more items never increases the remaining items. If every
key truthy under `checked1` is truthy under `checked2`, the total remaining
count under `checked2` is at most the count under `checked1`, and each
category's remaining sequence under `checked2` is a subsequence of its
remaining sequence under `checked1`. -/
theorem c10_checking_monotone (list : ShoppingList)
    (checked1 checked2 : CheckedItems)
    (h : ∀ k, checked1 k = true → checked2 k = true) :
    countRemainingItems (getRemainingItemsByCategory (some list) checked2) ≤
      countRemainingItems (getRemainingItemsByCategory (some list) checked1)
    ∧ ∀ p ∈ list, (filterUnchecked checked2 p.1 0 p.2).Sublist
        (filterUnchecked checked1 p.1 0 p.2) := by
  constructor
  · rw [count_eq_sum_filterUnchecked, count_eq_sum_filterUnchecked]
    exact List.sum_le_sum fun p _ =>
      (filterUnchecked_sublist checked1 checked2 h p.1 p.2 0).length_le
  · exact fun p _ => filterUnchecked_sublist checked1 checked2 h p.1 p.2 0

/-- Witness for C10 at a concrete list and a concrete pair of checked maps. -/
theorem c10_checking_monotone_witness :
    countRemainingItems (getRemainingItemsByCategory
        (some [("W", [⟨"Cebula", "2 szt", none⟩, ⟨"Marchew", "", none⟩])])
        (fun k => k == "W-0" || k == "W-1")) ≤
      countRemainingItems (getRemainingItemsByCategory
        (some [("W", [⟨"Cebula", "2 szt", none⟩, ⟨"Marchew", "", none⟩])])
        (fun k => k == "W-0")) :=
  (c10_checking_monotone
    [("W", [⟨"Cebula", "2 szt", none⟩, ⟨"Marchew", "", none⟩])]
    (fun k => k == "W-0") (fun k => k == "W-0" || k == "W-1")
    (fun k hk => by
      have hk' : (k == "W-0") = true := hk
      show (k == "W-0" || k == "W-1") = true
      rw [hk']
      rfl)).1
